import Mathlib

/-!
Shallow embedding of the chart build pipeline of
`internal/pkg/chart` (`build.go` together with the `chart` struct file)
of the terraform provider, plus the fetch/selection step.

Conventions of the embedding:
* byte slices and file contents are modelled as `String`;
* tar entries are name/content pairs (sizes are implicit in content length);
* Go maps are modelled as association lists with Go-map update semantics
  (`annSet` overwrites the unique binding of a key, otherwise appends);
* the external libraries (yamlpatch, jsonpatch, the images mapping resolver,
  the YAML metadata parser) are parameters of the embedding, collected in
  `PatchLibs` and `BuildEnv`;
* fallible Go functions returning `(T, error)` become `Except String T`
  (or `Except BuildError T` inside the build, mirroring the wrapped
  `fmt.Errorf` messages via `renderBuildError`).
-/

deriving instance DecidableEq for Except

/-- Go `strings.Contains(s, "/")`, the separator check used by the locator. -/
def containsSlash (s : String) : Bool := s.data.contains '/'

/-- Go `strings.CutSuffix`: when `suffix` terminates `s`, the rest of `s`. -/
def cutSuffix (s suffix : String) : Option String :=
  if suffix.data.isSuffixOf s.data then
    some (String.mk (s.data.take (s.data.length - suffix.data.length)))
  else none

/-- Go `strings.HasPrefix s pre` on the underlying character lists. -/
def startsWith (s p : String) : Bool := p.data.isPrefixOf s.data

/-- Go `strings.HasSuffix` on the underlying character lists. -/
def endsWith (s suffix : String) : Bool := suffix.data.isSuffixOf s.data

/-- One step of the Chart.yaml scan loop in `BuildConfig.fetch` (build.go):
`if dir, ok := strings.CutSuffix(hdr.Name, "/Chart.yaml"); ok {
  if !strings.Contains(dir, "/") { chartName = dir } }`. -/
def chartNameStep (acc : String) (entryName : String) : String :=
  match cutSuffix entryName "/Chart.yaml" with
  | some dir => if containsSlash dir then acc else dir
  | none => acc

/-- The chart-root name computed by scanning every entry name of the data
segment, as in the loop of `BuildConfig.fetch`; the accumulator starts empty. -/
def findChartName (names : List String) : String :=
  names.foldl chartNameStep ""

/-- The locator outcome of `BuildConfig.fetch`: after the scan,
`if chartName == "" { return errors.New("package is missing Chart.yaml") }`. -/
def locateChart (names : List String) : Except String String :=
  let n := findChartName names
  if n = "" then Except.error "package is missing Chart.yaml" else Except.ok n

/-- Claim-side view of a single entry name: the directory `<dir>` when the name
has the shape `<dir>/Chart.yaml` with `<dir>` free of further separators. -/
def topLevelChartDir (entryName : String) : Option String :=
  match cutSuffix entryName "/Chart.yaml" with
  | some dir => if containsSlash dir then none else some dir
  | none => none

/-- A resolved package entry as returned by `ResolveWorld`
(`apk.RepositoryPackage`); only the name takes part in the selection. -/
structure RepositoryPackage where
  name : String
deriving DecidableEq, Repr

/-- Selection loop of `BuildConfig.fetch` (build.go): the first resolved
package whose name equals the queried name, if any. -/
def selectChartPkg (pkgs : List RepositoryPackage) (q : String) : Option RepositoryPackage :=
  pkgs.find? (fun p => p.name == q)

/-- The stage of `BuildConfig.fetch` after `ResolveWorld` succeeds: a non-empty
conflict list aborts; otherwise the code proceeds directly to
`bc.APK().FetchPackage(ctx, chartPkg)` with the (unchecked, possibly absent)
selection. A result `some sel` means the download call is reached with
selection `sel`. -/
def fetchDownloadStage (pkgs : List RepositoryPackage) (q : String)
    (conflicts : List String) : Option (Option RepositoryPackage) :=
  if conflicts.isEmpty then some (selectChartPkg pkgs q) else none

/-- Last element of a list, with a default; spec-side helper used to
characterise the last-match semantics of the scan loop. -/
def lastD {α : Type} : List α → α → α
  | [], d => d
  | a :: t, _ => lastD t a

/-- Interface to the two external patch libraries used by `patchedWith`:
`yamlpatch` (decode via `json.Unmarshal` into a `yamlpatch.Patch`, then
`yamlpatch.Apply`) and `jsonpatch` (`DecodePatch`, then `Patch.Apply`).
`Y` and `J` are the decoded patch document types. -/
structure PatchLibs (Y J : Type) where
  yamlUnmarshalPatch : String → Except String Y
  yamlApply : String → Y → Except String String
  jsonDecodePatch : String → Except String J
  jsonApply : J → String → Except String String

/-- Go `strings.HasSuffix(filename, ".yaml") || strings.HasSuffix(filename, ".yml")`. -/
def hasYamlSuffix (filename : String) : Bool :=
  endsWith filename ".yaml" || endsWith filename ".yml"

/-- The `patchedWith` function of build.go, with the two patch libraries
abstracted; error strings mirror the `fmt.Errorf` wrappers of the source. -/
def patchedWith {Y J : Type} (libs : PatchLibs Y J)
    (filename original patchOps : String) : Except String String :=
  if hasYamlSuffix filename then
    match libs.yamlUnmarshalPatch patchOps with
    | Except.error e => Except.error ("error unmarshalling JSON patch to YAML patch: " ++ e)
    | Except.ok p =>
      match libs.yamlApply original p with
      | Except.error e => Except.error ("error applying YAML patch: " ++ e)
      | Except.ok patched => Except.ok patched
  else
    match libs.jsonDecodePatch patchOps with
    | Except.error e => Except.error ("error decoding JSON patch: " ++ e)
    | Except.ok jp =>
      match libs.jsonApply jp original with
      | Except.error e => Except.error ("error applying JSON patch: " ++ e)
      | Except.ok patched => Except.ok patched

/-- Spec-side definition of the structure-preserving YAML strategy: decode the
document as a YAML patch and apply it directly against the original textual
structure (used for the refinement statement of the decision rule). -/
def specYamlStrategy {Y J : Type} (libs : PatchLibs Y J)
    (original patchOps : String) : Except String String :=
  match libs.yamlUnmarshalPatch patchOps with
  | Except.error e => Except.error ("error unmarshalling JSON patch to YAML patch: " ++ e)
  | Except.ok p =>
    match libs.yamlApply original p with
    | Except.error e => Except.error ("error applying YAML patch: " ++ e)
    | Except.ok patched => Except.ok patched

/-- Spec-side definition of the RFC 6902 JSON strategy: decode the document as
a JSON patch and apply it against the raw bytes treated as JSON. -/
def specJsonStrategy {Y J : Type} (libs : PatchLibs Y J)
    (original patchOps : String) : Except String String :=
  match libs.jsonDecodePatch patchOps with
  | Except.error e => Except.error ("error decoding JSON patch: " ++ e)
  | Except.ok jp =>
    match libs.jsonApply jp original with
    | Except.error e => Except.error ("error applying JSON patch: " ++ e)
    | Except.ok patched => Except.ok patched

/-- One tar entry of the (decompressed) data segment. -/
structure TarEntry where
  name : String
  content : String
deriving DecidableEq, Repr

/-- The helm chart metadata (`helmchart.Metadata`) fields used by this code:
name, version, description, sources and the free-form annotations map
(modelled as an association list with pairwise-distinct keys). -/
structure Metadata where
  name : String
  version : String
  description : String
  sources : List String
  annotations : List (String × String)
deriving DecidableEq, Repr

/-- The `chartData` struct of build.go: chart-root name, presence of the
side-channel images mapping, and the buffered data segment (as entries). -/
structure ChartData where
  name : String
  hasMapping : Bool
  data : List TarEntry

/-- External collaborators of `chartify`: the patch libraries, the images
mapping resolver (`cd.mapping.Resolve`), and the YAML metadata parser
(`yaml.Unmarshal` into `helmchart.Metadata`). -/
structure BuildEnv (Y J : Type) where
  libs : PatchLibs Y J
  resolveImages : String → Except String String
  parseMetadata : String → Except String Metadata

/-- Errors produced by `chartify`, one constructor per `fmt.Errorf` site. -/
inductive BuildError where
  | readTar (msg : String)
  | patchApply (rel : String) (msg : String)
  | resolveImages (msg : String)
  | parseChart (msg : String)
  | missingChart
deriving DecidableEq, Repr

/-- The message text produced by the corresponding `fmt.Errorf` call. -/
def renderBuildError : BuildError → String
  | BuildError.readTar msg => "error reading tar: " ++ msg
  | BuildError.patchApply rel msg => "error applying patch to file " ++ rel ++ ": " ++ msg
  | BuildError.resolveImages msg => "error resolving image values: " ++ msg
  | BuildError.parseChart msg => "error parsing Chart.yaml: " ++ msg
  | BuildError.missingChart => "could not find Chart.yaml"

/-- Go `filepath.Rel(root, name)` in the only case `chartify` uses it: `name`
is prefixed by `root ++ "/"`, and the result is the remainder. -/
def relPath (root : String) (entryName : String) : String :=
  String.mk (entryName.data.drop (root.data.length + 1))

/-- Lookup `patches[rel]` in the patch mapping (a Go map, keys unique). -/
def findPatch : List (String × String) → String → Option String
  | [], _ => none
  | p :: rest, rel => if p.1 = rel then some p.2 else findPatch rest rel

/-- Loop state of `chartify`: entries written to the output tar so far, and
the metadata parsed from a `Chart.yaml` entry, if one was seen. -/
structure ChartifyState where
  out : List TarEntry
  metadata : Option Metadata
deriving DecidableEq, Repr

/-- The buffered branch of the entry loop of `chartify`: apply the patch when
one targets `rel` (wrapping failures with the file path), then image-reference
resolution when applicable, then re-parse the (possibly patched) bytes into
the metadata when `rel` is the chart descriptor. Returns the final content
and the updated metadata. -/
def transformEntry {Y J : Type} (env : BuildEnv Y J) (cd : ChartData)
    (patches : List (String × String)) (refs : Bool) (mdIn : Option Metadata)
    (rel content : String) : Except BuildError (String × Option Metadata) :=
  match (match findPatch patches rel with
         | some doc =>
           match patchedWith env.libs rel content doc with
           | Except.error msg => Except.error (BuildError.patchApply rel msg)
           | Except.ok c => Except.ok c
         | none => Except.ok content) with
  | Except.error err => Except.error err
  | Except.ok c1 =>
    match (if rel == "values.yaml" && cd.hasMapping && refs then
             match env.resolveImages c1 with
             | Except.error msg => Except.error (BuildError.resolveImages msg)
             | Except.ok c => Except.ok c
           else Except.ok c1) with
    | Except.error err => Except.error err
    | Except.ok c2 =>
      match (if rel == "Chart.yaml" then
               match env.parseMetadata c2 with
               | Except.error msg => Except.error (BuildError.parseChart msg)
               | Except.ok md => Except.ok (some md)
             else Except.ok mdIn) with
      | Except.error err => Except.error err
      | Except.ok md => Except.ok (c2, md)

/-- The body of the entry loop of `chartify` (build.go): entries not under
`<chart-root>/` are skipped; an entry that needs a patch, image-reference
resolution or is the chart descriptor is buffered and transformed in that
order; any other retained entry is stream-copied unchanged. -/
def processEntry {Y J : Type} (env : BuildEnv Y J) (cd : ChartData)
    (patches : List (String × String)) (refs : Bool)
    (st : ChartifyState) (e : TarEntry) : Except BuildError ChartifyState :=
  if startsWith e.name (cd.name ++ "/") then
    let rel := relPath cd.name e.name
    if (findPatch patches rel).isSome
        || (rel == "values.yaml" && cd.hasMapping && refs)
        || rel == "Chart.yaml" then
      match transformEntry env cd patches refs st.metadata rel e.content with
      | Except.error err => Except.error err
      | Except.ok (c2, md) => Except.ok ⟨st.out ++ [⟨e.name, c2⟩], md⟩
    else Except.ok ⟨st.out ++ [e], st.metadata⟩
  else Except.ok st

/-- The entry loop of `chartify` over the whole data segment. -/
def chartifyEntries {Y J : Type} (env : BuildEnv Y J) (cd : ChartData)
    (patches : List (String × String)) (refs : Bool) : Except BuildError ChartifyState :=
  cd.data.foldlM (processEntry env cd patches refs) ⟨[], none⟩

/-- A layer as produced by `tarball.LayerFromOpener` / `static.NewLayer`:
raw content plus declared media type. -/
structure Layer where
  content : String
  mediaType : String
deriving DecidableEq, Repr

/-- `helmregistry.ChartLayerMediaType`. -/
def ChartLayerMediaType : String := "application/vnd.cncf.helm.chart.content.v1.tar+gzip"

/-- `helmregistry.ConfigMediaType`. -/
def ConfigMediaType : String := "application/vnd.cncf.helm.config.v1+json"

/-- `ggcrtypes.OCIManifestSchema1`. -/
def OCIManifestMediaType : String := "application/vnd.oci.image.manifest.v1+json"

/-- Serialization of the output tar entries into the layer blob. -/
def tarBytes (entries : List TarEntry) : String :=
  String.intercalate "\x00" (entries.map (fun e => e.name ++ "\x00" ++ e.content))

/-- The `chartify` function of build.go: run the entry loop, fail with
`could not find Chart.yaml` when no descriptor entry was observed, otherwise
produce the content layer (chart-content media type) and the metadata. -/
def chartify {Y J : Type} (env : BuildEnv Y J) (cd : ChartData)
    (patches : List (String × String)) (refs : Bool) :
    Except BuildError (Layer × Metadata) :=
  match chartifyEntries env cd patches refs with
  | Except.error err => Except.error err
  | Except.ok st =>
    match st.metadata with
    | none => Except.error BuildError.missingChart
    | some md => Except.ok (⟨tarBytes st.out, ChartLayerMediaType⟩, md)

/-- The `chart` struct of the chart package: metadata, the single content
layer, and the two lookup maps. -/
structure ChartArtifact where
  metadata : Metadata
  content : Layer
  diffIDs : List (String × Layer)
  digestIDs : List (String × Layer)
deriving DecidableEq, Repr

/-- The construction in `Build` (build.go): the two lookup maps are created
with `make(map[v1.Hash]v1.Layer)` and never populated. -/
def mkChart (md : Metadata) (content : Layer) : ChartArtifact :=
  { metadata := md, content := content, diffIDs := [], digestIDs := [] }

/-- `Build` after a successful fetch: build the layer via `chartify` and wrap
it in the `chart` struct. -/
def buildChart {Y J : Type} (env : BuildEnv Y J) (cd : ChartData)
    (patches : List (String × String)) (refs : Bool) :
    Except BuildError ChartArtifact :=
  match chartify env cd patches refs with
  | Except.error err => Except.error err
  | Except.ok (l, md) => Except.ok (mkChart md l)

/-- Go map lookup for the two layer indices of the `chart` struct. -/
def findLayer : List (String × Layer) → String → Option Layer
  | [], _ => none
  | p :: rest, h => if p.1 = h then some p.2 else findLayer rest h

/-- `chart.LayerByDiffID`. -/
def LayerByDiffID (c : ChartArtifact) (h : String) : Except String Layer :=
  match findLayer c.diffIDs h with
  | some l => Except.ok l
  | none => Except.error ("layer with diff ID " ++ h ++ " not found")

/-- `chart.LayerByDigest`. -/
def LayerByDigest (c : ChartArtifact) (h : String) : Except String Layer :=
  match findLayer c.digestIDs h with
  | some l => Except.ok l
  | none => Except.error ("layer with digest " ++ h ++ " not found")

/-- Go map assignment `m[k] = v` on an association list: overwrite the
binding when the key is present, otherwise append the new pair. -/
def annSet : List (String × String) → String → String → List (String × String)
  | [], k, v => [(k, v)]
  | p :: rest, k, v => if p.1 = k then (k, v) :: rest else p :: annSet rest k v

/-- Go `maps.Copy(dst, src)`: assign every pair of `src` into `dst`. -/
def mapsCopy (dst src : List (String × String)) : List (String × String) :=
  src.foldl (fun acc q => annSet acc q.1 q.2) dst

/-- Go map read `m[k]` on an association list. -/
def lookupAnn : List (String × String) → String → Option String
  | [], _ => none
  | p :: rest, k => if p.1 = k then some p.2 else lookupAnn rest k

/-- The annotation map literal of `chart.Manifest` plus the conditional
source assignment: the three standard annotations always, and
`org.opencontainers.image.source = strings.Join(c.metadata.Sources, ",")`
when the source list is non-empty. -/
def derivedAnnotations (md : Metadata) : List (String × String) :=
  let base := [("org.opencontainers.image.title", md.name),
               ("org.opencontainers.image.version", md.version),
               ("org.opencontainers.image.description", md.description)]
  if md.sources.length > 0 then
    base ++ [("org.opencontainers.image.source", String.intercalate "," md.sources)]
  else base

/-- An OCI descriptor as produced by `partial.Descriptor`: the layer's media
type, size and digest. -/
structure Descriptor where
  mediaType : String
  size : Nat
  digest : String
deriving DecidableEq, Repr

/-- The `v1.Manifest` fields populated by `chart.Manifest`. -/
structure Manifest where
  schemaVersion : Nat
  mediaType : String
  configDesc : Descriptor
  layers : List Descriptor
  annotations : List (String × String)
deriving DecidableEq, Repr

/-- JSON `\x22...\x22` quoting (content escaping is irrelevant here). -/
def quote (s : String) : String := "\x22" ++ s ++ "\x22"

/-- Byte-wise lexicographic order on character lists, the order in which Go's
`encoding/json` serializes map keys. -/
def lexLe : List Char → List Char → Bool
  | [], _ => true
  | _ :: _, [] => false
  | a :: as, b :: bs => if a < b then true else if b < a then false else lexLe as bs

/-- Order on annotation pairs by key, used to model the sorted-key JSON
serialization of Go maps. -/
def pairLe (p q : String × String) : Prop := lexLe p.1.data q.1.data = true

instance : DecidableRel pairLe := fun p q =>
  inferInstanceAs (Decidable (lexLe p.1.data q.1.data = true))

instance : IsTotal (String × String) pairLe where
  total := by
    have htot : ∀ x y : List Char, lexLe x y = true ∨ lexLe y x = true := by
      intro x
      induction x with
      | nil => intro y; exact Or.inl rfl
      | cons a as ih =>
        intro y
        cases y with
        | nil => exact Or.inr rfl
        | cons b bs =>
          rcases lt_trichotomy a b with hab | hab | hab
          · left; simp [lexLe, hab]
          · subst hab
            rcases ih bs with h | h
            · left; simp [lexLe, lt_irrefl, h]
            · right; simp [lexLe, lt_irrefl, h]
          · right; simp [lexLe, hab]
    intro p q
    exact htot p.1.data q.1.data

instance : IsTrans (String × String) pairLe where
  trans := by
    have htr : ∀ x y z : List Char,
        lexLe x y = true → lexLe y z = true → lexLe x z = true := by
      intro x
      induction x with
      | nil => intro y z _ _; rfl
      | cons a as ih =>
        intro y z h1 h2
        cases y with
        | nil => simp [lexLe] at h1
        | cons b bs =>
          cases z with
          | nil => simp [lexLe] at h2
          | cons c cs =>
            simp only [lexLe] at h1 h2 ⊢
            rcases lt_trichotomy a b with hab | hab | hab
            · rcases lt_trichotomy b c with hbc | hbc | hbc
              · simp [lt_trans hab hbc]
              · subst hbc; simp [hab]
              · rw [if_neg (asymm hbc), if_pos hbc] at h2; simp at h2
            · subst hab
              rw [if_neg (lt_irrefl a), if_neg (lt_irrefl a)] at h1
              rcases lt_trichotomy a c with hac | hac | hac
              · simp [hac]
              · subst hac
                rw [if_neg (lt_irrefl a), if_neg (lt_irrefl a)] at h2 ⊢
                exact ih bs cs h1 h2
              · rw [if_neg (asymm hac), if_pos hac] at h2; simp at h2
            · rw [if_neg (asymm hab), if_pos hab] at h1; simp at h1
    intro p q r h1 h2
    exact htr p.1.data q.1.data r.1.data h1 h2

/-- Annotation pairs in the key order used by `json.Marshal`. -/
def sortPairs (l : List (String × String)) : List (String × String) :=
  List.insertionSort pairLe l

/-- JSON object rendering of a Go `map[string]string`: keys sorted. -/
def renderPairs (l : List (String × String)) : String :=
  "\x7b" ++ String.intercalate "," ((sortPairs l).map (fun p => quote p.1 ++ ":" ++ quote p.2)) ++ "\x7d"

/-- JSON array rendering of a list of strings. -/
def renderStringList (l : List String) : String :=
  "[" ++ String.intercalate "," (l.map quote) ++ "]"

/-- Canonical `json.Marshal` of the metadata struct (`c.RawConfigFile` /
`c.config()`): fields in struct order, map values with sorted keys. -/
def jsonMarshalMetadata (md : Metadata) : String :=
  "\x7b" ++ quote "name" ++ ":" ++ quote md.name
  ++ "," ++ quote "version" ++ ":" ++ quote md.version
  ++ "," ++ quote "description" ++ ":" ++ quote md.description
  ++ "," ++ quote "sources" ++ ":" ++ renderStringList md.sources
  ++ "," ++ quote "annotations" ++ ":" ++ renderPairs md.annotations
  ++ "\x7d"

/-- The configuration layer `c.config()`: `static.NewLayer` over the
serialized metadata with the Helm config media type. -/
def configLayer (md : Metadata) : Layer :=
  { content := jsonMarshalMetadata md, mediaType := ConfigMediaType }

/-- `partial.Descriptor` of a layer, for an arbitrary digest function. -/
def descriptorOfLayer (hash : String → String) (l : Layer) : Descriptor :=
  { mediaType := l.mediaType, size := l.content.data.length, digest := hash l.content }

/-- The `chart.Manifest` method: schema version 2, OCI manifest media type,
config and single content-layer descriptors, derived annotations overlaid by
`maps.Copy` with the descriptor-supplied annotations. -/
def chartManifest (hash : String → String) (c : ChartArtifact) : Manifest :=
  { schemaVersion := 2
    mediaType := OCIManifestMediaType
    configDesc := descriptorOfLayer hash (configLayer c.metadata)
    layers := [descriptorOfLayer hash c.content]
    annotations := mapsCopy (derivedAnnotations c.metadata) c.metadata.annotations }

/-- JSON rendering of a descriptor. -/
def renderDescriptor (d : Descriptor) : String :=
  "\x7b" ++ quote "mediaType" ++ ":" ++ quote d.mediaType
  ++ "," ++ quote "size" ++ ":" ++ toString d.size
  ++ "," ++ quote "digest" ++ ":" ++ quote d.digest
  ++ "\x7d"

/-- JSON rendering of the manifest, as `json.Marshal` would produce it. -/
def renderManifest (m : Manifest) : String :=
  "\x7b" ++ quote "schemaVersion" ++ ":" ++ toString m.schemaVersion
  ++ "," ++ quote "mediaType" ++ ":" ++ quote m.mediaType
  ++ "," ++ quote "config" ++ ":" ++ renderDescriptor m.configDesc
  ++ "," ++ quote "layers" ++ ":[" ++ String.intercalate "," (m.layers.map renderDescriptor) ++ "]"
  ++ "," ++ quote "annotations" ++ ":" ++ renderPairs m.annotations
  ++ "\x7d"

/-- `chart.RawManifest`: the serialized bytes of `Manifest()`. -/
def rawManifest (hash : String → String) (c : ChartArtifact) : String :=
  renderManifest (chartManifest hash c)

/-- `chart.Digest`: the digest of the serialized manifest. -/
def manifestDigest (hash : String → String) (c : ChartArtifact) : String :=
  hash (rawManifest hash c)

/-- Pairwise-distinct keys of an association list (the well-formedness every
Go map enjoys by construction). -/
def NodupKeys (l : List (String × String)) : Prop :=
  (l.map Prod.fst).Nodup

instance (l : List (String × String)) : Decidable (NodupKeys l) :=
  inferInstanceAs (Decidable ((l.map Prod.fst).Nodup))

/-- Trivial instantiation of the patch libraries, for concrete runs. -/
def unitLibs : PatchLibs Unit Unit :=
  { yamlUnmarshalPatch := fun _ => Except.ok ()
    yamlApply := fun b _ => Except.ok b
    jsonDecodePatch := fun _ => Except.ok ()
    jsonApply := fun _ b => Except.ok b }

/-- A concrete metadata value, for concrete runs. -/
def mdBasic : Metadata :=
  { name := "chart-basic", version := "0.1.0", description := "", sources := [], annotations := [] }

/-- A concrete build environment whose parser always yields `mdBasic`. -/
def envBasic : BuildEnv Unit Unit :=
  { libs := unitLibs
    resolveImages := fun s => Except.ok s
    parseMetadata := fun _ => Except.ok mdBasic }

/-- A concrete data segment with a top-level descriptor and a values file. -/
def cdBasic : ChartData :=
  { name := "chart-basic", hasMapping := false
    data := [⟨"chart-basic/Chart.yaml", "yaml"⟩, ⟨"chart-basic/values.yaml", "vals"⟩] }

/- ### Theorems for the locator and the fetch selection -/

theorem lastD_mem {α : Type} (l : List α) (d : α) :
    lastD l d = d ∨ lastD l d ∈ l := by
  induction l generalizing d with
  | nil => exact Or.inl rfl
  | cons a t ih =>
    rcases ih a with h | h
    · exact Or.inr (by rw [lastD, h]; exact List.mem_cons_self a t)
    · exact Or.inr (List.mem_cons_of_mem a h)

theorem chartNameStep_eq (acc n : String) :
    chartNameStep acc n = (topLevelChartDir n).getD acc := by
  unfold chartNameStep topLevelChartDir
  cases cutSuffix n "/Chart.yaml" with
  | none => rfl
  | some dir =>
    by_cases hs : containsSlash dir
    · simp [hs]
    · simp [hs]

theorem foldl_chartNameStep (names : List String) (acc : String) :
    names.foldl chartNameStep acc = lastD (names.filterMap topLevelChartDir) acc := by
  induction names generalizing acc with
  | nil => rfl
  | cons n t ih =>
    simp only [List.foldl_cons, List.filterMap_cons]
    cases h : topLevelChartDir n with
    | none => rw [chartNameStep_eq, h, Option.getD_none, ih]
    | some dir => rw [chartNameStep_eq, h, Option.getD_some, ih, lastD]

theorem cutSuffix_eq_append {s suffix d : String}
    (h : cutSuffix s suffix = some d) : s = d ++ suffix := by
  unfold cutSuffix at h
  by_cases hs : suffix.data.isSuffixOf s.data
  · rw [if_pos hs, Option.some_inj] at h
    rw [List.isSuffixOf_iff_suffix] at hs
    obtain ⟨t, ht⟩ := hs
    have hlen : s.data.length = t.length + suffix.data.length := by
      rw [← ht, List.length_append]
    have htake : s.data.take (s.data.length - suffix.data.length) = t := by
      have h2 : s.data.length - suffix.data.length = t.length := by omega
      rw [h2, ← ht, List.take_left]
    apply String.ext
    rw [String.data_append, ← h]
    show s.data = s.data.take (s.data.length - suffix.data.length) ++ suffix.data
    rw [htake, ht]
  · rw [if_neg hs] at h
    exact absurd h (by simp)

theorem findChartName_eq_lastD (names : List String) :
    findChartName names = lastD (names.filterMap topLevelChartDir) "" :=
  foldl_chartNameStep names ""

theorem topLevelChartDir_some {n d : String} (h : topLevelChartDir n = some d) :
    n = d ++ "/Chart.yaml" ∧ containsSlash d = false := by
  unfold topLevelChartDir at h
  cases hc : cutSuffix n "/Chart.yaml" with
  | none => rw [hc] at h; exact absurd h (by simp)
  | some dir =>
    rw [hc] at h
    by_cases hs : containsSlash dir
    · simp [hs] at h
    · simp [hs] at h
      subst h
      exact ⟨cutSuffix_eq_append hc, by simpa using hs⟩

/-- C3 counterexample: on a data segment whose entries are
`a/Chart.yaml` and `/Chart.yaml`, a top-level descriptor entry exists
(`<dir> = "a"` contains no separator), yet the locator fails with the
missing-descriptor error, because the later `/Chart.yaml` entry (empty
`<dir>`, also separator-free) overwrites the tracked chart root with the
empty string. -/
theorem locator_counterexample :
    ("a/Chart.yaml" = "a" ++ "/Chart.yaml" ∧ containsSlash "a" = false ∧
      "a/Chart.yaml" ∈ ["a/Chart.yaml", "/Chart.yaml"]) ∧
    locateChart ["a/Chart.yaml", "/Chart.yaml"]
      = Except.error "package is missing Chart.yaml" := by
  exact ⟨⟨by decide, by decide, by decide⟩, by decide⟩

/-- C3 (amended): the locator establishes the chart root only from an entry
named `<dir>/Chart.yaml` whose `<dir>` contains no further path separator
(an entry at deeper nesting never establishes the root), keeping the last
such match in stream order; it fails with the missing-descriptor error
exactly when that last match is absent or is the degenerate empty `<dir>`
arising from an entry named `/Chart.yaml`. -/
theorem locator_amended (names : List String) :
    (∀ r, locateChart names = Except.ok r →
        r ≠ "" ∧ containsSlash r = false ∧ (r ++ "/Chart.yaml") ∈ names) ∧
    (locateChart names = Except.error "package is missing Chart.yaml" ↔
        lastD (names.filterMap topLevelChartDir) "" = "") := by
  unfold locateChart
  rw [findChartName_eq_lastD]
  constructor
  · intro r hr
    by_cases h : lastD (names.filterMap topLevelChartDir) "" = ""
    · rw [if_pos h] at hr; exact absurd hr (by simp)
    · rw [if_neg h] at hr
      have hr' : lastD (names.filterMap topLevelChartDir) "" = r := by
        simpa using hr
      subst hr'
      refine ⟨h, ?_⟩
      rcases lastD_mem (names.filterMap topLevelChartDir) "" with hm | hm
      · exact absurd hm h
      · rcases List.mem_filterMap.mp hm with ⟨n, hn, htop⟩
        rcases topLevelChartDir_some htop with ⟨heq, hsl⟩
        exact ⟨hsl, heq ▸ hn⟩
  · by_cases h : lastD (names.filterMap topLevelChartDir) "" = ""
    · rw [if_pos h]; simp [h]
    · rw [if_neg h]; simp [h]

/-- C10: evaluation of the fetch selection at a failing input: resolution
succeeded (empty conflict list), no resolved entry bears the queried name
(the query is satisfied through a differently-named provider), and the code
still reaches the download call, with an absent (nil) selection, because
`BuildConfig.fetch` never checks the selection for nil before calling
`FetchPackage`. -/
theorem fetch_nil_selection_reaches_download :
    selectChartPkg [⟨"istio-base-compat"⟩] "istio-charts-base" = none ∧
    fetchDownloadStage [⟨"istio-base-compat"⟩] "istio-charts-base" [] = some none := by
  exact ⟨by decide, by decide⟩

/-- C1 counterexample: for a concretely built artifact (digest function taken
as the identity on the modelled bytes), looking up the artifact's own content
layer by its digest, or by its diff-id, returns the not-found error instead of
the layer: `Build` creates both index maps empty and never populates them. -/
theorem layer_lookup_counterexample :
    (descriptorOfLayer (fun s => s) ⟨"tarblob", ChartLayerMediaType⟩).digest = "tarblob" ∧
    LayerByDigest (mkChart ⟨"c", "1", "", [], []⟩ ⟨"tarblob", ChartLayerMediaType⟩) "tarblob"
      = Except.error "layer with digest tarblob not found" ∧
    LayerByDiffID (mkChart ⟨"c", "1", "", [], []⟩ ⟨"tarblob", ChartLayerMediaType⟩) "tarblob"
      = Except.error "layer with diff ID tarblob not found" := by
  exact ⟨rfl, by decide, by decide⟩

/-- C1 (amended): the digest/diff-id index of an artifact as constructed by
`Build` is created empty and never populated, so `LayerByDigest` and
`LayerByDiffID` return the not-found error for every hash, including the
owned layers' own digests and diff-ids. -/
theorem layer_lookup_amended (md : Metadata) (l : Layer) (h : String) :
    LayerByDigest (mkChart md l) h
      = Except.error ("layer with digest " ++ h ++ " not found") ∧
    LayerByDiffID (mkChart md l) h
      = Except.error ("layer with diff ID " ++ h ++ " not found") :=
  ⟨rfl, rfl⟩

theorem chartify_ok_layer {Y J : Type} {env : BuildEnv Y J} {cd : ChartData}
    {patches : List (String × String)} {refs : Bool} {l : Layer} {md : Metadata}
    (h : chartify env cd patches refs = Except.ok (l, md)) :
    l.mediaType = ChartLayerMediaType := by
  unfold chartify at h
  cases hce : chartifyEntries env cd patches refs with
  | error e => rw [hce] at h; exact absurd h (by simp)
  | ok st =>
    rw [hce] at h
    dsimp only [] at h
    cases hmd : st.metadata with
    | none => rw [hmd] at h; exact absurd h (by simp)
    | some md0 =>
      rw [hmd] at h
      dsimp only [] at h
      have : l = ⟨tarBytes st.out, ChartLayerMediaType⟩ := by
        have h2 := (Except.ok.injEq _ _).mp h
        exact (congrArg Prod.fst h2).symm
      rw [this]

/-- C6: the manifest of every artifact produced by the build has schema
version 2, the OCI image-manifest media type, a config descriptor carrying
the Helm config media type, and exactly one layer descriptor, carrying the
Helm chart-content media type. -/
theorem manifest_shape {Y J : Type} (env : BuildEnv Y J) (cd : ChartData)
    (patches : List (String × String)) (refs : Bool) (hash : String → String)
    (c : ChartArtifact) (hc : buildChart env cd patches refs = Except.ok c) :
    (chartManifest hash c).schemaVersion = 2 ∧
    (chartManifest hash c).mediaType = OCIManifestMediaType ∧
    (chartManifest hash c).configDesc.mediaType = ConfigMediaType ∧
    (chartManifest hash c).layers.map Descriptor.mediaType = [ChartLayerMediaType] := by
  refine ⟨rfl, rfl, rfl, ?_⟩
  unfold buildChart at hc
  cases hch : chartify env cd patches refs with
  | error e => rw [hch] at hc; exact absurd hc (by simp)
  | ok pr =>
    rw [hch] at hc
    have hcontent : c.content.mediaType = ChartLayerMediaType := by
      have hc' : mkChart pr.2 pr.1 = c := by
        have := hc
        simp at this
        exact this
      rw [← hc']
      exact @chartify_ok_layer Y J env cd patches refs pr.1 pr.2 (by rw [hch])
    show [(descriptorOfLayer hash c.content).mediaType] = [ChartLayerMediaType]
    rw [show (descriptorOfLayer hash c.content).mediaType = c.content.mediaType from rfl, hcontent]

theorem manifest_shape_witness :
    (chartManifest (fun s => s)
      (mkChart mdBasic
        ⟨tarBytes [⟨"chart-basic/Chart.yaml", "yaml"⟩, ⟨"chart-basic/values.yaml", "vals"⟩],
         ChartLayerMediaType⟩)).schemaVersion = 2 ∧
    (chartManifest (fun s => s)
      (mkChart mdBasic
        ⟨tarBytes [⟨"chart-basic/Chart.yaml", "yaml"⟩, ⟨"chart-basic/values.yaml", "vals"⟩],
         ChartLayerMediaType⟩)).mediaType = OCIManifestMediaType ∧
    (chartManifest (fun s => s)
      (mkChart mdBasic
        ⟨tarBytes [⟨"chart-basic/Chart.yaml", "yaml"⟩, ⟨"chart-basic/values.yaml", "vals"⟩],
         ChartLayerMediaType⟩)).configDesc.mediaType = ConfigMediaType ∧
    (chartManifest (fun s => s)
      (mkChart mdBasic
        ⟨tarBytes [⟨"chart-basic/Chart.yaml", "yaml"⟩, ⟨"chart-basic/values.yaml", "vals"⟩],
         ChartLayerMediaType⟩)).layers.map Descriptor.mediaType = [ChartLayerMediaType] :=
  manifest_shape envBasic cdBasic [] false (fun s => s)
    (mkChart mdBasic
      ⟨tarBytes [⟨"chart-basic/Chart.yaml", "yaml"⟩, ⟨"chart-basic/values.yaml", "vals"⟩],
       ChartLayerMediaType⟩)
    (by decide)

theorem nodupKeys_cons {p : String × String} {rest : List (String × String)}
    (h : NodupKeys (p :: rest)) : p.1 ∉ rest.map Prod.fst ∧ NodupKeys rest := by
  unfold NodupKeys at h ⊢
  rw [List.map_cons, List.nodup_cons] at h
  exact h

theorem lookupAnn_annSet (l : List (String × String)) (k v k' : String) :
    lookupAnn (annSet l k v) k' = if k = k' then some v else lookupAnn l k' := by
  induction l with
  | nil => by_cases h : k = k' <;> simp [annSet, lookupAnn, h]
  | cons p rest ih =>
    by_cases hp : p.1 = k
    · have h1 : annSet (p :: rest) k v = (k, v) :: rest := by simp [annSet, hp]
      rw [h1]
      by_cases h : k = k'
      · simp [lookupAnn, h]
      · have hp' : ¬ p.1 = k' := by rw [hp]; exact h
        simp [lookupAnn, h, hp']
    · have h1 : annSet (p :: rest) k v = p :: annSet rest k v := by simp [annSet, hp]
      rw [h1]
      by_cases h : p.1 = k'
      · have hkk : ¬ k = k' := fun he => hp (h.trans he.symm)
        simp [lookupAnn, h, hkk]
      · simp [lookupAnn, h, ih]

theorem lookupAnn_none_of_not_mem {l : List (String × String)} {k : String}
    (h : k ∉ l.map Prod.fst) : lookupAnn l k = none := by
  induction l with
  | nil => rfl
  | cons p rest ih =>
    simp only [List.map_cons, List.mem_cons] at h
    push_neg at h
    have hp : ¬ p.1 = k := fun he => h.1 he.symm
    simp [lookupAnn, hp, ih h.2]

theorem lookupAnn_mapsCopy_of_none :
    ∀ (s d : List (String × String)) (k : String), lookupAnn s k = none →
      lookupAnn (mapsCopy d s) k = lookupAnn d k := by
  intro s
  induction s with
  | nil => intro d k _; rfl
  | cons p rest ih =>
    intro d k h
    have hp : ¬ p.1 = k := by
      intro he
      simp [lookupAnn, he] at h
    have hrest : lookupAnn rest k = none := by
      simpa [lookupAnn, hp] using h
    show lookupAnn (mapsCopy (annSet d p.1 p.2) rest) k = lookupAnn d k
    rw [ih (annSet d p.1 p.2) k hrest, lookupAnn_annSet, if_neg hp]

theorem lookupAnn_mapsCopy_of_some :
    ∀ (s d : List (String × String)) (k v : String), NodupKeys s →
      lookupAnn s k = some v → lookupAnn (mapsCopy d s) k = some v := by
  intro s
  induction s with
  | nil => intro d k v _ h; exact absurd h (by simp [lookupAnn])
  | cons p rest ih =>
    intro d k v hnd h
    obtain ⟨hmem, hnd'⟩ := nodupKeys_cons hnd
    by_cases hp : p.1 = k
    · have hv : p.2 = v := by simpa [lookupAnn, hp] using h
      have hnone : lookupAnn rest k = none := lookupAnn_none_of_not_mem (hp ▸ hmem)
      show lookupAnn (mapsCopy (annSet d p.1 p.2) rest) k = some v
      rw [lookupAnn_mapsCopy_of_none rest (annSet d p.1 p.2) k hnone,
        lookupAnn_annSet, if_pos hp, hv]
    · have hrest : lookupAnn rest k = some v := by simpa [lookupAnn, hp] using h
      exact ih (annSet d p.1 p.2) k v hnd' hrest

theorem lookupAnn_mapsCopy_isSome :
    ∀ (s d : List (String × String)) (k : String), (lookupAnn d k).isSome →
      (lookupAnn (mapsCopy d s) k).isSome := by
  intro s
  induction s with
  | nil => intro d k h; exact h
  | cons p rest ih =>
    intro d k h
    show (lookupAnn (mapsCopy (annSet d p.1 p.2) rest) k).isSome
    apply ih
    rw [lookupAnn_annSet]
    by_cases hp : p.1 = k
    · simp [hp]
    · simpa [hp] using h

theorem derived_title (md : Metadata) :
    lookupAnn (derivedAnnotations md) "org.opencontainers.image.title" = some md.name := by
  unfold derivedAnnotations
  by_cases h : md.sources.length > 0 <;> simp [h, lookupAnn]

theorem derived_version (md : Metadata) :
    lookupAnn (derivedAnnotations md) "org.opencontainers.image.version" = some md.version := by
  unfold derivedAnnotations
  by_cases h : md.sources.length > 0 <;> simp [h, lookupAnn]

theorem derived_description (md : Metadata) :
    lookupAnn (derivedAnnotations md) "org.opencontainers.image.description"
      = some md.description := by
  unfold derivedAnnotations
  by_cases h : md.sources.length > 0 <;> simp [h, lookupAnn]

theorem derived_source (md : Metadata) :
    lookupAnn (derivedAnnotations md) "org.opencontainers.image.source"
      = if md.sources.length > 0 then some (String.intercalate "," md.sources)
        else none := by
  unfold derivedAnnotations
  by_cases h : md.sources.length > 0 <;> simp [h, lookupAnn]

/-- C2 counterexample: a descriptor-supplied custom annotation whose key equals
the derived standard title key overrides the derived value in the built
manifest (`maps.Copy` assigns unconditionally), instead of the manifest
retaining the derived value as the claim states. -/
theorem annotations_override_counterexample :
    lookupAnn (chartManifest (fun s => s)
        (mkChart ⟨"real-name", "", "", [], [("org.opencontainers.image.title", "custom-title")]⟩
          ⟨"t", ChartLayerMediaType⟩)).annotations "org.opencontainers.image.title"
      = some "custom-title" ∧
    ("custom-title" : String) ≠ "real-name" := by
  exact ⟨by decide, by decide⟩

/-- C2 (amended): descriptor-supplied custom annotations are copied over the
derived map unconditionally, so for any shared key the custom value overrides
the derived one, while keys the descriptor does not supply keep their derived
value. -/
theorem annotations_override_amended (hash : String → String) (md : Metadata)
    (content : Layer) (k : String) (hnd : NodupKeys md.annotations) :
    (∀ v, lookupAnn md.annotations k = some v →
        lookupAnn (chartManifest hash (mkChart md content)).annotations k = some v) ∧
    (lookupAnn md.annotations k = none →
        lookupAnn (chartManifest hash (mkChart md content)).annotations k
          = lookupAnn (derivedAnnotations md) k) := by
  constructor
  · intro v hv
    show lookupAnn (mapsCopy (derivedAnnotations md) md.annotations) k = some v
    exact lookupAnn_mapsCopy_of_some md.annotations (derivedAnnotations md) k v hnd hv
  · intro hnone
    show lookupAnn (mapsCopy (derivedAnnotations md) md.annotations) k
        = lookupAnn (derivedAnnotations md) k
    exact lookupAnn_mapsCopy_of_none md.annotations (derivedAnnotations md) k hnone

theorem annotations_override_witness :
    lookupAnn (chartManifest (fun s => s)
        (mkChart ⟨"n", "v", "d", [], [("thisshould", "bepreserved")]⟩
          ⟨"t", ChartLayerMediaType⟩)).annotations "thisshould"
      = some "bepreserved" :=
  (annotations_override_amended (fun s => s)
      ⟨"n", "v", "d", [], [("thisshould", "bepreserved")]⟩
      ⟨"t", ChartLayerMediaType⟩ "thisshould" (by decide)).1 "bepreserved" (by decide)

/-- C7 counterexample: with two source URLs the built manifest's source
annotation is the comma-join of all of them (`strings.Join(Sources, ",")`),
not the first URL as the claim states. -/
theorem source_annotation_counterexample :
    lookupAnn (chartManifest (fun s => s)
        (mkChart ⟨"n", "1", "", ["https://a", "https://b"], []⟩
          ⟨"t", ChartLayerMediaType⟩)).annotations "org.opencontainers.image.source"
      = some "https://a,https://b" ∧
    ("https://a,https://b" : String) ≠ "https://a" := by
  exact ⟨by decide, by decide⟩

/-- C7 (amended): when the descriptor supplies no custom annotation under the
source key, the built manifest's source annotation equals the comma-separated
join of all source URLs when the list is non-empty, and is absent when the
list is empty. -/
theorem source_annotation_amended (hash : String → String) (md : Metadata)
    (content : Layer)
    (hno : lookupAnn md.annotations "org.opencontainers.image.source" = none) :
    lookupAnn (chartManifest hash (mkChart md content)).annotations
        "org.opencontainers.image.source"
      = if md.sources.length > 0 then some (String.intercalate "," md.sources)
        else none := by
  show lookupAnn (mapsCopy (derivedAnnotations md) md.annotations)
      "org.opencontainers.image.source" = _
  rw [lookupAnn_mapsCopy_of_none md.annotations (derivedAnnotations md) _ hno,
    derived_source]

theorem source_annotation_witness :
    lookupAnn (chartManifest (fun s => s)
        (mkChart ⟨"n", "1", "", ["https://a", "https://b"], []⟩
          ⟨"t", ChartLayerMediaType⟩)).annotations "org.opencontainers.image.source"
      = if (["https://a", "https://b"] : List String).length > 0
        then some (String.intercalate "," ["https://a", "https://b"]) else none :=
  source_annotation_amended (fun s => s) ⟨"n", "1", "", ["https://a", "https://b"], []⟩
    ⟨"t", ChartLayerMediaType⟩ (by decide)

/-- C8 counterexample: a descriptor with an empty description still produces a
description annotation (with empty value) in the built manifest, refuting the
claim that a derived standard key is present only when the corresponding field
is non-empty. -/
theorem standard_annotations_counterexample :
    (⟨"x", "y", "", [], []⟩ : Metadata).description = "" ∧
    lookupAnn (chartManifest (fun s => s)
        (mkChart ⟨"x", "y", "", [], []⟩ ⟨"t", ChartLayerMediaType⟩)).annotations
        "org.opencontainers.image.description"
      = some "" := by
  exact ⟨rfl, by decide⟩

/-- C8 (amended): the three derived standard annotation keys are always set
in the built manifest, holding exactly the corresponding descriptor field
(even when that field is empty), provided the descriptor's custom annotations
do not override the key. -/
theorem standard_annotations_amended (hash : String → String) (md : Metadata)
    (content : Layer)
    (h1 : lookupAnn md.annotations "org.opencontainers.image.title" = none)
    (h2 : lookupAnn md.annotations "org.opencontainers.image.version" = none)
    (h3 : lookupAnn md.annotations "org.opencontainers.image.description" = none) :
    lookupAnn (chartManifest hash (mkChart md content)).annotations
        "org.opencontainers.image.title" = some md.name ∧
    lookupAnn (chartManifest hash (mkChart md content)).annotations
        "org.opencontainers.image.version" = some md.version ∧
    lookupAnn (chartManifest hash (mkChart md content)).annotations
        "org.opencontainers.image.description" = some md.description := by
  refine ⟨?_, ?_, ?_⟩
  · show lookupAnn (mapsCopy (derivedAnnotations md) md.annotations)
        "org.opencontainers.image.title" = _
    rw [lookupAnn_mapsCopy_of_none md.annotations (derivedAnnotations md) _ h1,
      derived_title]
  · show lookupAnn (mapsCopy (derivedAnnotations md) md.annotations)
        "org.opencontainers.image.version" = _
    rw [lookupAnn_mapsCopy_of_none md.annotations (derivedAnnotations md) _ h2,
      derived_version]
  · show lookupAnn (mapsCopy (derivedAnnotations md) md.annotations)
        "org.opencontainers.image.description" = _
    rw [lookupAnn_mapsCopy_of_none md.annotations (derivedAnnotations md) _ h3,
      derived_description]

theorem standard_annotations_witness :
    lookupAnn (chartManifest (fun s => s)
        (mkChart ⟨"", "", "", [], []⟩ ⟨"t", ChartLayerMediaType⟩)).annotations
        "org.opencontainers.image.title" = some "" ∧
    lookupAnn (chartManifest (fun s => s)
        (mkChart ⟨"", "", "", [], []⟩ ⟨"t", ChartLayerMediaType⟩)).annotations
        "org.opencontainers.image.version" = some "" ∧
    lookupAnn (chartManifest (fun s => s)
        (mkChart ⟨"", "", "", [], []⟩ ⟨"t", ChartLayerMediaType⟩)).annotations
        "org.opencontainers.image.description" = some "" :=
  standard_annotations_amended (fun s => s) ⟨"", "", "", [], []⟩
    ⟨"t", ChartLayerMediaType⟩ (by decide) (by decide) (by decide)

theorem processEntry_ok_out {Y J : Type} {env : BuildEnv Y J} {cd : ChartData}
    {patches : List (String × String)} {refs : Bool} {st : ChartifyState}
    {e : TarEntry} {st' : ChartifyState}
    (h : processEntry env cd patches refs st e = Except.ok st') :
    (st'.out = st.out ∧ st'.metadata = st.metadata) ∨
      (startsWith e.name (cd.name ++ "/") = true ∧
        ∃ c, st'.out = st.out ++ [⟨e.name, c⟩]) := by
  unfold processEntry at h
  split at h
  · dsimp only [] at h
    split at h
    · split at h
      · exact absurd h (by simp)
      · next c2 md heq =>
        right
        refine ⟨by assumption, c2, ?_⟩
        have h2 := (Except.ok.injEq _ _).mp h
        exact (congrArg ChartifyState.out h2).symm
    · right
      refine ⟨by assumption, e.content, ?_⟩
      have h2 := (Except.ok.injEq _ _).mp h
      have h3 := (congrArg ChartifyState.out h2).symm
      simpa using h3
  · left
    have h2 := (Except.ok.injEq _ _).mp h
    exact ⟨(congrArg ChartifyState.out h2).symm, (congrArg ChartifyState.metadata h2).symm⟩

theorem processEntry_copy {Y J : Type} (env : BuildEnv Y J) (cd : ChartData)
    (patches : List (String × String)) (refs : Bool) (st : ChartifyState)
    (e : TarEntry)
    (hpre : startsWith e.name (cd.name ++ "/") = true)
    (hfp : findPatch patches (relPath cd.name e.name) = none)
    (hnr : (relPath cd.name e.name == "values.yaml" && cd.hasMapping && refs) = false)
    (hcy : (relPath cd.name e.name == "Chart.yaml") = false) :
    processEntry env cd patches refs st e = Except.ok ⟨st.out ++ [e], st.metadata⟩ := by
  unfold processEntry
  rw [if_pos hpre]
  dsimp only []
  rw [hfp]
  simp [hnr, hcy]

theorem chartifyFold_mono {Y J : Type} (env : BuildEnv Y J) (cd : ChartData)
    (patches : List (String × String)) (refs : Bool) :
    ∀ (l : List TarEntry) (st st' : ChartifyState),
      List.foldlM (processEntry env cd patches refs) st l = Except.ok st' →
      ∀ x ∈ st.out, x ∈ st'.out := by
  intro l
  induction l with
  | nil =>
    intro st st' h x hx
    have : st = st' := by simpa [pure, Except.pure] using h
    rwa [← this]
  | cons e t ih =>
    intro st st' h x hx
    rw [List.foldlM_cons] at h
    cases hpe : processEntry env cd patches refs st e with
    | error err =>
      rw [hpe] at h
      exact absurd h (by simp [Bind.bind, Except.bind])
    | ok st1 =>
      rw [hpe] at h
      have h' : List.foldlM (processEntry env cd patches refs) st1 t = Except.ok st' := by
        simpa [Bind.bind, Except.bind] using h
      apply ih st1 st' h'
      rcases processEntry_ok_out hpe with ⟨hc, _⟩ | ⟨_, c, hout⟩
      · rwa [hc]
      · rw [hout]; exact List.mem_append_left _ hx

theorem chartifyFold_out {Y J : Type} (env : BuildEnv Y J) (cd : ChartData)
    (patches : List (String × String)) (refs : Bool) :
    ∀ (l : List TarEntry) (st st' : ChartifyState),
      List.foldlM (processEntry env cd patches refs) st l = Except.ok st' →
      ∀ x ∈ st'.out, x ∈ st.out ∨
        (startsWith x.name (cd.name ++ "/") = true ∧ ∃ e0, e0 ∈ l ∧ e0.name = x.name) := by
  intro l
  induction l with
  | nil =>
    intro st st' h x hx
    have : st = st' := by simpa [pure, Except.pure] using h
    exact Or.inl (this ▸ hx)
  | cons e t ih =>
    intro st st' h x hx
    rw [List.foldlM_cons] at h
    cases hpe : processEntry env cd patches refs st e with
    | error err =>
      rw [hpe] at h
      exact absurd h (by simp [Bind.bind, Except.bind])
    | ok st1 =>
      rw [hpe] at h
      have h' : List.foldlM (processEntry env cd patches refs) st1 t = Except.ok st' := by
        simpa [Bind.bind, Except.bind] using h
      rcases ih st1 st' h' x hx with hx1 | ⟨hpre, e0, he0, hname⟩
      · rcases processEntry_ok_out hpe with ⟨hc, _⟩ | ⟨hpre, c, hout⟩
        · exact Or.inl (hc ▸ hx1)
        · rw [hout] at hx1
          rcases List.mem_append.mp hx1 with hxa | hxb
          · exact Or.inl hxa
          · have hxe : x = ⟨e.name, c⟩ := by simpa using hxb
            right
            refine ⟨?_, e, List.mem_cons_self e t, by rw [hxe]⟩
            rw [hxe]
            exact hpre
      · exact Or.inr ⟨hpre, e0, List.mem_cons_of_mem e he0, hname⟩

theorem chartifyFold_copy {Y J : Type} (env : BuildEnv Y J) (cd : ChartData)
    (patches : List (String × String)) (refs : Bool) :
    ∀ (l : List TarEntry) (st st' : ChartifyState),
      List.foldlM (processEntry env cd patches refs) st l = Except.ok st' →
      ∀ e ∈ l,
        startsWith e.name (cd.name ++ "/") = true →
        findPatch patches (relPath cd.name e.name) = none →
        (relPath cd.name e.name == "values.yaml" && cd.hasMapping && refs) = false →
        (relPath cd.name e.name == "Chart.yaml") = false →
        e ∈ st'.out := by
  intro l
  induction l with
  | nil => intro st st' _ e he; exact absurd he (by simp)
  | cons a t ih =>
    intro st st' h e he hpre hfp hnr hcy
    rw [List.foldlM_cons] at h
    cases hpe : processEntry env cd patches refs st a with
    | error err =>
      rw [hpe] at h
      exact absurd h (by simp [Bind.bind, Except.bind])
    | ok st1 =>
      rw [hpe] at h
      have h' : List.foldlM (processEntry env cd patches refs) st1 t = Except.ok st' := by
        simpa [Bind.bind, Except.bind] using h
      rcases List.mem_cons.mp he with he1 | het
      · subst he1
        have hcopy := processEntry_copy env cd patches refs st e hpre hfp hnr hcy
        have hst1 : st1 = ⟨st.out ++ [e], st.metadata⟩ := by
          rw [hpe] at hcopy
          exact (Except.ok.injEq _ _).mp hcopy
        apply chartifyFold_mono env cd patches refs t st1 st' h'
        rw [hst1]
        simp
      · exact ih st1 st' h' e het hpre hfp hnr hcy

theorem startsWith_var_forces {s root : String}
    (h1 : startsWith s (root ++ "/") = true) (h2 : startsWith s "var/" = true)
    (h3 : containsSlash root = false) : root = "var" := by
  unfold startsWith at h1 h2
  rw [List.isPrefixOf_iff_prefix] at h1 h2
  obtain ⟨t1, ht1⟩ := h1
  obtain ⟨t2, ht2⟩ := h2
  rw [String.data_append] at ht1
  have heq : root.data ++ '/' :: t1 = 'v' :: 'a' :: 'r' :: '/' :: t2 := by
    have := ht1.trans ht2.symm
    simpa using this
  rcases hr : root.data with _ | ⟨c1, _ | ⟨c2, _ | ⟨c3, rest⟩⟩⟩
  · rw [hr] at heq
    simp at heq
  · rw [hr] at heq
    simp at heq
  · rw [hr] at heq
    simp at heq
  · rcases rest with _ | ⟨c4, rest'⟩
    · rw [hr] at heq
      simp at heq
      obtain ⟨hv, ha, hrr, -⟩ := heq
      apply String.ext
      rw [hr, hv, ha, hrr]
    · rw [hr] at heq
      simp at heq
      exfalso
      have hc4 : c4 = '/' := heq.2.2.2.1
      have h3' : (c1 :: c2 :: c3 :: c4 :: rest').contains '/' = false := by
        rw [← hr]; exact h3
      rw [hc4] at h3'
      simp at h3'

/-- C4 counterexample: when the chart descriptor itself sits under `var`
(entries `var/Chart.yaml` and `var/runtime.txt`), the chart root becomes
`var` and the layer builder retains `var/runtime.txt` — an entry under the
reserved `var` directory — in the output layer, refuting the claim that every
entry under `var` is always dropped. There is no dedicated `var` exclusion in
`chartify`; entries under `var` survive whenever the root is `var`. -/
theorem chartify_var_counterexample :
    startsWith "var/runtime.txt" "var/" = true ∧
    (chartifyEntries envBasic ⟨"var", false, [⟨"var/Chart.yaml", "y"⟩, ⟨"var/runtime.txt", "r"⟩]⟩
        [] false).map (fun st => st.out.map TarEntry.name)
      = Except.ok ["var/Chart.yaml", "var/runtime.txt"] := by
  exact ⟨by decide, by decide⟩

/-- C4 (amended): for a successful run of the layer-builder loop, every
output entry's name is prefixed by `<chart-root>/` and stems from an input
entry of that name; entries under the reserved `var` directory are absent
from the output whenever the chart root (a separator-free name) is not `var`
itself — they are excluded by the chart-root prefix filter, not by a
dedicated rule; and every input entry under the chart root whose relative
path is not the chart descriptor, is not targeted by a patch, and is not
subject to image-reference resolution is copied to the output unchanged. -/
theorem chartify_layer_amended {Y J : Type} (env : BuildEnv Y J) (cd : ChartData)
    (patches : List (String × String)) (refs : Bool) (st : ChartifyState)
    (hok : chartifyEntries env cd patches refs = Except.ok st) :
    (∀ x ∈ st.out, startsWith x.name (cd.name ++ "/") = true ∧
        ∃ e0, e0 ∈ cd.data ∧ e0.name = x.name) ∧
    (containsSlash cd.name = false → cd.name ≠ "var" →
        ∀ x ∈ st.out, startsWith x.name "var/" = false) ∧
    (∀ e ∈ cd.data, startsWith e.name (cd.name ++ "/") = true →
        findPatch patches (relPath cd.name e.name) = none →
        (relPath cd.name e.name == "values.yaml" && cd.hasMapping && refs) = false →
        (relPath cd.name e.name == "Chart.yaml") = false →
        e ∈ st.out) := by
  have hfold := hok
  unfold chartifyEntries at hfold
  have hout := chartifyFold_out env cd patches refs cd.data ⟨[], none⟩ st hfold
  refine ⟨?_, ?_, ?_⟩
  · intro x hx
    rcases hout x hx with hx0 | ⟨hpre, e0, he0, hname⟩
    · exact absurd hx0 (by simp)
    · exact ⟨hpre, e0, he0, hname⟩
  · intro hsl hvar x hx
    rcases hout x hx with hx0 | ⟨hpre, _, _, _⟩
    · exact absurd hx0 (by simp)
    · by_contra hv
      have hv' : startsWith x.name "var/" = true := by
        cases hvv : startsWith x.name "var/" with
        | true => rfl
        | false => exact absurd hvv hv
      exact hvar (startsWith_var_forces hpre hv' hsl)
  · intro e he hpre hfp hnr hcy
    exact chartifyFold_copy env cd patches refs cd.data ⟨[], none⟩ st hfold
      e he hpre hfp hnr hcy

theorem chartify_layer_witness :
    (⟨"chart-basic/values.yaml", "vals"⟩ : TarEntry) ∈
      (⟨[⟨"chart-basic/Chart.yaml", "yaml"⟩, ⟨"chart-basic/values.yaml", "vals"⟩],
        some mdBasic⟩ : ChartifyState).out :=
  (chartify_layer_amended envBasic cdBasic [] false
      ⟨[⟨"chart-basic/Chart.yaml", "yaml"⟩, ⟨"chart-basic/values.yaml", "vals"⟩], some mdBasic⟩
      (by decide)).2.2
    ⟨"chart-basic/values.yaml", "vals"⟩ (by decide) (by decide) (by decide) (by decide) (by decide)

/-- C5: the patch engine decision rule and error reporting. For every target
path, `patchedWith` follows the structure-preserving YAML strategy exactly
when the path ends in `.yaml` or `.yml` and the RFC 6902 JSON strategy
otherwise; and when the patch decode or apply fails for an entry targeted by
the patch mapping, the build step fails with an error that names the
offending relative path in its rendered message. -/
theorem patch_decision_and_error (Y J : Type) (env : BuildEnv Y J)
    (cd : ChartData) (patches : List (String × String)) (refs : Bool)
    (st : ChartifyState) (e : TarEntry) (doc msg : String)
    (hpre : startsWith e.name (cd.name ++ "/") = true)
    (hfind : findPatch patches (relPath cd.name e.name) = some doc)
    (hfail : patchedWith env.libs (relPath cd.name e.name) e.content doc
      = Except.error msg) :
    (∀ fname b d, patchedWith env.libs fname b d
        = if hasYamlSuffix fname then specYamlStrategy env.libs b d
          else specJsonStrategy env.libs b d) ∧
    processEntry env cd patches refs st e
        = Except.error (BuildError.patchApply (relPath cd.name e.name) msg) ∧
    (∃ s t, renderBuildError (BuildError.patchApply (relPath cd.name e.name) msg)
        = s ++ relPath cd.name e.name ++ t) := by
  refine ⟨?_, ?_, ?_⟩
  · intro fname b d
    unfold patchedWith specYamlStrategy specJsonStrategy
    by_cases h : hasYamlSuffix fname <;> simp [h]
  · unfold processEntry
    rw [if_pos hpre]
    dsimp only []
    have hcond : ((findPatch patches (relPath cd.name e.name)).isSome
        || (relPath cd.name e.name == "values.yaml" && cd.hasMapping && refs)
        || (relPath cd.name e.name == "Chart.yaml")) = true := by
      rw [hfind]
      rfl
    rw [if_pos hcond]
    unfold transformEntry
    rw [hfind]
    dsimp only []
    rw [hfail]
  · refine ⟨"error applying patch to file ", ": " ++ msg, ?_⟩
    show "error applying patch to file " ++ relPath cd.name e.name ++ ": " ++ msg
        = "error applying patch to file " ++ (relPath cd.name e.name ++ (": " ++ msg))
    rw [String.append_assoc, String.append_assoc]

theorem patch_decision_and_error_witness :
    processEntry
        (⟨⟨fun _ => Except.error "bad patch doc", fun b _ => Except.ok b,
           fun _ => Except.ok (), fun _ b => Except.ok b⟩,
          fun s => Except.ok s, fun _ => Except.ok mdBasic⟩ : BuildEnv Unit Unit)
        ⟨"c", false, [⟨"c/values.yaml", "img: v1"⟩]⟩
        [("values.yaml", "p")] false ⟨[], none⟩ ⟨"c/values.yaml", "img: v1"⟩
      = Except.error (BuildError.patchApply "values.yaml"
          "error unmarshalling JSON patch to YAML patch: bad patch doc") :=
  (patch_decision_and_error Unit Unit
      (⟨⟨fun _ => Except.error "bad patch doc", fun b _ => Except.ok b,
         fun _ => Except.ok (), fun _ b => Except.ok b⟩,
        fun s => Except.ok s, fun _ => Except.ok mdBasic⟩ : BuildEnv Unit Unit)
      ⟨"c", false, [⟨"c/values.yaml", "img: v1"⟩]⟩
      [("values.yaml", "p")] false ⟨[], none⟩ ⟨"c/values.yaml", "img: v1"⟩
      "p" "error unmarshalling JSON patch to YAML patch: bad patch doc"
      (by decide) (by decide) (by decide)).2.1

theorem lexLe_antisymm : ∀ x y : List Char,
    lexLe x y = true → lexLe y x = true → x = y := by
  intro x
  induction x with
  | nil =>
    intro y h1 h2
    cases y with
    | nil => rfl
    | cons b bs => simp [lexLe] at h2
  | cons a as ih =>
    intro y h1 h2
    cases y with
    | nil => simp [lexLe] at h1
    | cons b bs =>
      simp only [lexLe] at h1 h2
      rcases lt_trichotomy a b with hab | hab | hab
      · rw [if_neg (asymm hab), if_pos hab] at h2; simp at h2
      · subst hab
        rw [if_neg (lt_irrefl a), if_neg (lt_irrefl a)] at h1 h2
        rw [ih bs h1 h2]
      · rw [if_neg (asymm hab), if_pos hab] at h1; simp at h1

theorem nodupKeys_perm {l₁ l₂ : List (String × String)} (hp : l₁.Perm l₂)
    (h : NodupKeys l₁) : NodupKeys l₂ := by
  unfold NodupKeys at h ⊢
  exact (hp.map Prod.fst).nodup h

theorem sorted_perm_nodupKeys_eq :
    ∀ {l₁ l₂ : List (String × String)}, l₁.Perm l₂ →
      l₁.Sorted pairLe → l₂.Sorted pairLe → NodupKeys l₁ → l₁ = l₂ := by
  intro l₁
  induction l₁ with
  | nil =>
    intro l₂ hp _ _ _
    have := hp.symm.eq_nil
    rw [this]
  | cons a t ih =>
    intro l₂ hp hs1 hs2 hnd
    cases l₂ with
    | nil =>
      have := hp.eq_nil
      simp at this
    | cons b t₂ =>
      have ha2 : a ∈ b :: t₂ := hp.mem_iff.mp (List.mem_cons_self a t)
      have hab : a = b := by
        by_contra hne
        have hb1 : b ∈ a :: t := hp.mem_iff.mpr (List.mem_cons_self b t₂)
        have hbt : b ∈ t := by
          rcases List.mem_cons.mp hb1 with h | h
          · exact absurd h.symm hne
          · exact h
        have hat2 : a ∈ t₂ := by
          rcases List.mem_cons.mp ha2 with h | h
          · exact absurd h hne
          · exact h
        have h1 : pairLe a b := List.rel_of_sorted_cons hs1 b hbt
        have h2 : pairLe b a := List.rel_of_sorted_cons hs2 a hat2
        have hkey : a.1 = b.1 := String.ext (lexLe_antisymm a.1.data b.1.data h1 h2)
        have hmem : a.1 ∈ t.map Prod.fst := by
          rw [hkey]
          exact List.mem_map_of_mem Prod.fst hbt
        exact (nodupKeys_cons hnd).1 hmem
      subst hab
      have hp' : t.Perm t₂ := hp.cons_inv
      rw [ih hp' hs1.of_cons hs2.of_cons (nodupKeys_cons hnd).2]

theorem sortPairs_perm (l : List (String × String)) : (sortPairs l).Perm l :=
  List.perm_insertionSort pairLe l

theorem sortPairs_sorted (l : List (String × String)) : (sortPairs l).Sorted pairLe :=
  List.sorted_insertionSort pairLe l

theorem sortPairs_eq_of_perm {l₁ l₂ : List (String × String)} (hp : l₁.Perm l₂)
    (hnd : NodupKeys l₁) : sortPairs l₁ = sortPairs l₂ := by
  apply sorted_perm_nodupKeys_eq
  · exact (sortPairs_perm l₁).trans (hp.trans (sortPairs_perm l₂).symm)
  · exact sortPairs_sorted l₁
  · exact sortPairs_sorted l₂
  · exact nodupKeys_perm (sortPairs_perm l₁).symm hnd

theorem renderPairs_eq_of_perm {l₁ l₂ : List (String × String)} (hp : l₁.Perm l₂)
    (hnd : NodupKeys l₁) : renderPairs l₁ = renderPairs l₂ := by
  unfold renderPairs
  rw [sortPairs_eq_of_perm hp hnd]

theorem keys_annSet (l : List (String × String)) (k v : String) :
    (annSet l k v).map Prod.fst =
      if k ∈ l.map Prod.fst then l.map Prod.fst else l.map Prod.fst ++ [k] := by
  induction l with
  | nil => simp [annSet]
  | cons p rest ih =>
    by_cases hp : p.1 = k
    · simp [annSet, hp]
    · have hmk : (k ∈ (p :: rest).map Prod.fst) = (k ∈ rest.map Prod.fst) := by
        simp [List.mem_cons]
        intro h
        exact absurd h.symm hp
      rw [show annSet (p :: rest) k v = p :: annSet rest k v from by simp [annSet, hp]]
      by_cases hk : k ∈ rest.map Prod.fst
      · rw [List.map_cons, ih, if_pos hk, if_pos (by rw [hmk]; exact hk), List.map_cons]
      · rw [List.map_cons, ih, if_neg hk, if_neg (by rw [hmk]; exact hk), List.map_cons]
        simp

theorem annSet_nodupKeys {l : List (String × String)} (h : NodupKeys l) (k v : String) :
    NodupKeys (annSet l k v) := by
  unfold NodupKeys at h ⊢
  rw [keys_annSet]
  by_cases hk : k ∈ l.map Prod.fst
  · rw [if_pos hk]; exact h
  · rw [if_neg hk]
    refine List.Nodup.append h (List.nodup_singleton k) ?_
    intro a ha hak
    have : a = k := by simpa using hak
    exact hk (this ▸ ha)

theorem annSet_perm : ∀ {l₁ l₂ : List (String × String)}, l₁.Perm l₂ → NodupKeys l₁ →
    ∀ k v, (annSet l₁ k v).Perm (annSet l₂ k v) := by
  intro l₁ l₂ hp
  induction hp with
  | nil => intro _ k v; exact List.Perm.refl _
  | cons p hp ih =>
    rename_i t₁ t₂
    intro hnd k v
    by_cases hpk : p.1 = k
    · have e1 : annSet (p :: t₁) k v = (k, v) :: t₁ := by simp [annSet, hpk]
      have e2 : annSet (p :: t₂) k v = (k, v) :: t₂ := by simp [annSet, hpk]
      rw [e1, e2]
      exact hp.cons (k, v)
    · have e1 : annSet (p :: t₁) k v = p :: annSet t₁ k v := by simp [annSet, hpk]
      have e2 : annSet (p :: t₂) k v = p :: annSet t₂ k v := by simp [annSet, hpk]
      rw [e1, e2]
      exact (ih (nodupKeys_cons hnd).2 k v).cons p
  | swap x y t =>
    intro hnd k v
    have hxy : y.1 ≠ x.1 := by
      intro h
      exact (nodupKeys_cons hnd).1 (by simp [h])
    by_cases hyk : y.1 = k <;> by_cases hxk : x.1 = k
    · exact absurd (hyk.trans hxk.symm) hxy
    · rw [show annSet (y :: x :: t) k v = (k, v) :: x :: t from by simp [annSet, hyk],
        show annSet (x :: y :: t) k v = x :: annSet (y :: t) k v from by simp [annSet, hxk],
        show annSet (y :: t) k v = (k, v) :: t from by simp [annSet, hyk]]
      exact List.Perm.swap x (k, v) t
    · rw [show annSet (y :: x :: t) k v = y :: annSet (x :: t) k v from by simp [annSet, hyk],
        show annSet (x :: t) k v = (k, v) :: t from by simp [annSet, hxk],
        show annSet (x :: y :: t) k v = (k, v) :: y :: t from by simp [annSet, hxk]]
      exact List.Perm.swap (k, v) y t
    · rw [show annSet (y :: x :: t) k v = y :: x :: annSet t k v from by
          simp [annSet, hyk, hxk],
        show annSet (x :: y :: t) k v = x :: y :: annSet t k v from by
          simp [annSet, hyk, hxk]]
      exact List.Perm.swap x y (annSet t k v)
  | trans h12 h23 ih12 ih23 =>
    intro hnd k v
    exact (ih12 hnd k v).trans (ih23 (nodupKeys_perm h12 hnd) k v)

theorem mapsCopy_cons (d : List (String × String)) (p : String × String)
    (s : List (String × String)) :
    mapsCopy d (p :: s) = mapsCopy (annSet d p.1 p.2) s := rfl

theorem mapsCopy_perm_left : ∀ (s : List (String × String))
    {d₁ d₂ : List (String × String)}, d₁.Perm d₂ → NodupKeys d₁ →
    (mapsCopy d₁ s).Perm (mapsCopy d₂ s) := by
  intro s
  induction s with
  | nil => intro d₁ d₂ hp _; exact hp
  | cons p t ih =>
    intro d₁ d₂ hp hnd
    rw [mapsCopy_cons, mapsCopy_cons]
    exact ih (annSet_perm hp hnd p.1 p.2) (annSet_nodupKeys hnd p.1 p.2)

theorem annSet_swap {k k' : String} (hne : k ≠ k') (v v' : String) :
    ∀ d : List (String × String),
      (annSet (annSet d k v) k' v').Perm (annSet (annSet d k' v') k v) := by
  intro d
  induction d with
  | nil =>
    have h1 : annSet (annSet ([] : List (String × String)) k v) k' v'
        = [(k, v), (k', v')] := by
      simp [annSet, hne]
    have h2 : annSet (annSet ([] : List (String × String)) k' v') k v
        = [(k', v'), (k, v)] := by
      have : ¬ k' = k := fun h => hne h.symm
      simp [annSet, this]
    rw [h1, h2]
    exact List.Perm.swap (k', v') (k, v) []
  | cons p d ih =>
    by_cases hpk : p.1 = k <;> by_cases hpk' : p.1 = k'
    · exact absurd (hpk.symm.trans hpk') hne
    · have e1 : annSet (annSet (p :: d) k v) k' v' = (k, v) :: annSet d k' v' := by
        have h1 : annSet (p :: d) k v = (k, v) :: d := by simp [annSet, hpk]
        rw [h1]
        simp [annSet, fun h : k = k' => hne h]
      have e2 : annSet (annSet (p :: d) k' v') k v = (k, v) :: annSet d k' v' := by
        have h1 : annSet (p :: d) k' v' = p :: annSet d k' v' := by simp [annSet, hpk']
        rw [h1]
        simp [annSet, hpk]
      rw [e1, e2]
    · have e1 : annSet (annSet (p :: d) k v) k' v' = (k', v') :: annSet d k v := by
        have h1 : annSet (p :: d) k v = p :: annSet d k v := by simp [annSet, hpk]
        rw [h1]
        simp [annSet, hpk']
      have e2 : annSet (annSet (p :: d) k' v') k v = (k', v') :: annSet d k v := by
        have h1 : annSet (p :: d) k' v' = (k', v') :: d := by simp [annSet, hpk']
        have hkk : ¬ k' = k := fun h => hne h.symm
        rw [h1]
        simp [annSet, hkk]
      rw [e1, e2]
    · have e1 : annSet (annSet (p :: d) k v) k' v'
          = p :: annSet (annSet d k v) k' v' := by
        have h1 : annSet (p :: d) k v = p :: annSet d k v := by simp [annSet, hpk]
        rw [h1]
        simp [annSet, hpk']
      have e2 : annSet (annSet (p :: d) k' v') k v
          = p :: annSet (annSet d k' v') k v := by
        have h1 : annSet (p :: d) k' v' = p :: annSet d k' v' := by simp [annSet, hpk']
        rw [h1]
        simp [annSet, hpk]
      rw [e1, e2]
      exact ih.cons p

theorem mapsCopy_perm_right : ∀ {s₁ s₂ : List (String × String)}, s₁.Perm s₂ →
    NodupKeys s₁ → ∀ d, NodupKeys d → (mapsCopy d s₁).Perm (mapsCopy d s₂) := by
  intro s₁ s₂ hp
  induction hp with
  | nil => intro _ d _; exact List.Perm.refl _
  | cons p hp ih =>
    intro hnd d hndd
    rw [mapsCopy_cons, mapsCopy_cons]
    exact ih (nodupKeys_cons hnd).2 (annSet d p.1 p.2) (annSet_nodupKeys hndd p.1 p.2)
  | swap x y t =>
    intro hnd d hndd
    rw [mapsCopy_cons, mapsCopy_cons, mapsCopy_cons, mapsCopy_cons]
    apply mapsCopy_perm_left t
    · have hne : y.1 ≠ x.1 := by
        intro h
        exact (nodupKeys_cons hnd).1 (by simp [h])
      exact annSet_swap hne y.2 x.2 d
    · exact annSet_nodupKeys (annSet_nodupKeys hndd y.1 y.2) x.1 x.2
  | trans h12 h23 ih12 ih23 =>
    intro hnd d hndd
    exact (ih12 hnd d hndd).trans (ih23 (nodupKeys_perm h12 hnd) d hndd)

theorem mapsCopy_nodupKeys : ∀ (s d : List (String × String)), NodupKeys d →
    NodupKeys (mapsCopy d s) := by
  intro s
  induction s with
  | nil => intro d h; exact h
  | cons p t ih =>
    intro d h
    rw [mapsCopy_cons]
    exact ih (annSet d p.1 p.2) (annSet_nodupKeys h p.1 p.2)

theorem derived_nodupKeys (md : Metadata) : NodupKeys (derivedAnnotations md) := by
  unfold derivedAnnotations NodupKeys
  by_cases h : md.sources.length > 0 <;> simp [h]

/-- C9: determinism of the build output. The only run-to-run variation for a
fixed package content and patch mapping is the iteration order of the Go map
holding the descriptor's annotations; for any two such orders (permutations
with the well-formed distinct keys every Go map has), the serialized manifest
(RawManifest) is byte-identical and the manifest digest is equal, because the
annotation maps are serialized with sorted keys. -/
theorem build_determinism (hash : String → String) (md₁ md₂ : Metadata)
    (content : Layer)
    (hn : md₁.name = md₂.name) (hv : md₁.version = md₂.version)
    (hd : md₁.description = md₂.description) (hs : md₁.sources = md₂.sources)
    (hperm : md₁.annotations.Perm md₂.annotations)
    (hnd : NodupKeys md₁.annotations) :
    rawManifest hash (mkChart md₁ content) = rawManifest hash (mkChart md₂ content) ∧
    manifestDigest hash (mkChart md₁ content)
      = manifestDigest hash (mkChart md₂ content) := by
  have hder : derivedAnnotations md₁ = derivedAnnotations md₂ := by
    unfold derivedAnnotations
    rw [hn, hv, hd, hs]
  have hann : (mapsCopy (derivedAnnotations md₁) md₁.annotations).Perm
      (mapsCopy (derivedAnnotations md₁) md₂.annotations) :=
    mapsCopy_perm_right hperm hnd (derivedAnnotations md₁) (derived_nodupKeys md₁)
  have hnd1 : NodupKeys (mapsCopy (derivedAnnotations md₁) md₁.annotations) :=
    mapsCopy_nodupKeys md₁.annotations (derivedAnnotations md₁) (derived_nodupKeys md₁)
  have h1 : renderPairs (mapsCopy (derivedAnnotations md₁) md₁.annotations)
      = renderPairs (mapsCopy (derivedAnnotations md₂) md₂.annotations) := by
    rw [← hder]
    exact renderPairs_eq_of_perm hann hnd1
  have h2 : renderPairs md₁.annotations = renderPairs md₂.annotations :=
    renderPairs_eq_of_perm hperm hnd
  have hmeta : jsonMarshalMetadata md₁ = jsonMarshalMetadata md₂ := by
    unfold jsonMarshalMetadata
    rw [hn, hv, hd, hs, h2]
  have hraw : rawManifest hash (mkChart md₁ content)
      = rawManifest hash (mkChart md₂ content) := by
    unfold rawManifest renderManifest chartManifest mkChart configLayer descriptorOfLayer
    dsimp only []
    rw [hmeta, h1]
  exact ⟨hraw, congrArg hash hraw⟩

theorem build_determinism_witness :
    rawManifest (fun s => s)
        (mkChart ⟨"n", "1", "d", ["https://a"],
          [("alpha", "1"), ("beta", "2")]⟩ ⟨"t", ChartLayerMediaType⟩)
      = rawManifest (fun s => s)
        (mkChart ⟨"n", "1", "d", ["https://a"],
          [("beta", "2"), ("alpha", "1")]⟩ ⟨"t", ChartLayerMediaType⟩) ∧
    manifestDigest (fun s => s)
        (mkChart ⟨"n", "1", "d", ["https://a"],
          [("alpha", "1"), ("beta", "2")]⟩ ⟨"t", ChartLayerMediaType⟩)
      = manifestDigest (fun s => s)
        (mkChart ⟨"n", "1", "d", ["https://a"],
          [("beta", "2"), ("alpha", "1")]⟩ ⟨"t", ChartLayerMediaType⟩) :=
  build_determinism (fun s => s)
    ⟨"n", "1", "d", ["https://a"], [("alpha", "1"), ("beta", "2")]⟩
    ⟨"n", "1", "d", ["https://a"], [("beta", "2"), ("alpha", "1")]⟩
    ⟨"t", ChartLayerMediaType⟩ rfl rfl rfl rfl (by decide) (by decide)
